import Mathlib

/-!
Verification of the `obplatform` client (`obplatform/connector.py`) against its
natural-language specification.

The Python code is shallowly embedded: HTTP responses become explicit data,
the polling loop becomes structural recursion over the (finite) list of
responses the server will give to the successive requests, Python exceptions
become `Except` / explicit error values, and side effects (closing a response
body, sleeping, writing a chunk, log lines) are recorded as explicit event
traces.
-/

namespace OBPlatform

/-! ## Definitions -/

/-- Digits of `n`, most significant first, computed with explicit fuel so that
the definition is structurally recursive (and hence evaluates by `decide`).
The fuel is sufficient whenever `n ≤ fuel`. -/
def natCharsAux : Nat → Nat → List Char
  | 0, _ => []
  | _ + 1, 0 => []
  | fuel + 1, n + 1 =>
    natCharsAux fuel ((n + 1) / 10) ++ [Nat.digitChar ((n + 1) % 10)]

def natChars (n : Nat) : List Char :=
  if n = 0 then ['0'] else natCharsAux n n

def natStr (n : Nat) : String := String.mk (natChars n)

/-- Decode a digit character back to its value (`'0'` ↦ 0, …). -/
def charToDigit (c : Char) : Nat := c.toNat - 48

/-- Decode a most-significant-first digit string back to the number. -/
def decodeDigits (l : List Char) : Nat :=
  Nat.ofDigits 10 (l.reverse.map charToDigit)

def encodeKey (g : String) (i : Nat) (o : Option String) : String :=
  match o with
  | none => g ++ "[" ++ natStr i ++ "]"
  | some k => g ++ "[" ++ natStr i ++ "][" ++ k ++ "]"

/-- A string that contains no `[` and no `]`; the validity condition on group
names and mapping field names. -/
def bracketFree (s : String) : Prop := '[' ∉ s.data ∧ ']' ∉ s.data

instance (s : String) : Decidable (bracketFree s) := by
  unfold bracketFree; infer_instance

def keyTail (o : Option String) : List Char :=
  match o with
  | none => []
  | some k => '[' :: (k.data ++ [']'])

inductive Scalar where
  | int (i : Int)
  | str (s : String)
deriving DecidableEq, Repr

inductive ParamItem where
  | scalar (v : Scalar)
  | obj (fields : List (String × Scalar))
deriving DecidableEq, Repr

abbrev Params := List (String × List ParamItem)

/-- `_yield_payload_dict_item(self, params)`: for each `(key, list_)` of
`params` and each `(i, item)` of `enumerate(list_)`, yields
`(f"{key}[{i}]", item)` when `item` is not a dict, else
`(f"{key}[{i}][{subkey}]", subvalue)` for each `(subkey, subvalue)` of
`item.items()`. -/
def _yield_payload_dict_item (params : Params) : List (String × Scalar) :=
  params.flatMap (fun p =>
    (p.2.enum).flatMap (fun q =>
      match q.2 with
      | .scalar item => [(p.1 ++ "[" ++ natStr q.1 ++ "]", item)]
      | .obj fields =>
          fields.map (fun f => (p.1 ++ "[" ++ natStr q.1 ++ "][" ++ f.1 ++ "]", f.2))))

/-- One step of Python's `dict(iterable)` construction: assigning to an
existing key overwrites its value in place, a fresh key is appended. -/
def dictInsert (d : List (String × Scalar)) (kv : String × Scalar) :
    List (String × Scalar) :=
  if d.any (fun p => p.1 == kv.1) then
    d.map (fun p => if p.1 == kv.1 then (p.1, kv.2) else p)
  else
    d ++ [kv]

/-- Python's `dict(iterable)` over a list of key/value pairs. -/
def pyDict (l : List (String × Scalar)) : List (String × Scalar) :=
  l.foldl dictInsert []

/-- `_get_payload(self, params) = dict(self._yield_payload_dict_item(params))`. -/
def _get_payload (params : Params) : List (String × Scalar) :=
  pyDict (_yield_payload_dict_item params)

/-- The serializer as §4.1 of the spec describes it: a group `g` with values
`[v0, v1, …]` contributes, in order, the pair `g[i] ↦ vi` for a scalar `vi`
and the pairs `g[i][k] ↦ val` for every field `(k, val)` of a single-level
mapping `vi`, preserving the mapping's iteration order. -/
def specSerialize (params : Params) : List (String × Scalar) :=
  params.flatMap (fun p =>
    (p.2.enum).flatMap (fun q =>
      match q.2 with
      | .scalar v => [(encodeKey p.1 q.1 none, v)]
      | .obj fields => fields.map (fun f => (encodeKey p.1 q.1 (some f.1), f.2))))

/-- Validity of one list element: a mapping element has pairwise-distinct,
bracket-free field names (Python dict keys are necessarily distinct). -/
def itemValid : ParamItem → Prop
  | .scalar _ => True
  | .obj fields => (fields.map Prod.fst).Nodup ∧ ∀ f ∈ fields, bracketFree f.1

instance : (item : ParamItem) → Decidable (itemValid item)
  | .scalar _ => by unfold itemValid; infer_instance
  | .obj _ => by unfold itemValid; infer_instance

/-- A valid params dictionary: pairwise-distinct bracket-free group names and
valid elements. -/
def validParams (params : Params) : Prop :=
  (params.map Prod.fst).Nodup ∧
    ∀ p ∈ params, bracketFree p.1 ∧ ∀ item ∈ p.2, itemValid item

instance (params : Params) : Decidable (validParams params) := by
  unfold validParams; infer_instance

/-- The keys contributed by one list element. -/
def itemKeys (g : String) (i : Nat) : ParamItem → List String
  | .scalar _ => [encodeKey g i none]
  | .obj fields => fields.map (fun f => encodeKey g i (some f.1))

/-- The keys contributed by one group. -/
def groupKeys (p : String × List ParamItem) : List String :=
  (p.2.enum).flatMap (fun q => itemKeys p.1 q.1 q.2)

structure HttpResponse where
  status : Nat
  headers : List (String × String)
  chunks : List (List Nat)
deriving DecidableEq, Repr

/-- Full body of a response, as read by error reporting. -/
def HttpResponse.body (r : HttpResponse) : List Nat := r.chunks.flatten

/-- ASCII lowercasing, as Python's `str.lower()` acts on header names. -/
def lowerChar (c : Char) : Char :=
  if 'A' ≤ c ∧ c ≤ 'Z' then Char.ofNat (c.toNat + 32) else c

def lowerString (s : String) : String := String.mk (s.data.map lowerChar)

/-- Case-insensitive header lookup, as in `requests`' `CaseInsensitiveDict`
(which stores and compares lowercased keys). -/
def lookupHeader (headers : List (String × String)) (name : String) : Option String :=
  (headers.find? (fun p => lowerString p.1 == lowerString name)).map Prod.snd

inductive ClientError where
  | requestFailed (statusCode : Nat) (body : List Nat)
  | malformedResponse
deriving DecidableEq, Repr

/-- `response.raise_for_status()` raises for 4xx/5xx status codes. -/
def errorStatus (status : Nat) : Prop := 400 ≤ status ∧ status < 600

instance (status : Nat) : Decidable (errorStatus status) := by
  unfold errorStatus; infer_instance

/-- `_start_export_job`, as a function of the response the server gives to the
`POST /api/v1/exports` request: `raise_for_status()` then
`response.headers["location"]`.  The `KeyError` raised by the missing header
is the spec's `MalformedResponse`. -/
def _start_export_job (r : HttpResponse) : Except ClientError String :=
  if errorStatus r.status then
    .error (.requestFailed r.status r.body)
  else
    match lookupHeader r.headers "location" with
    | some loc => .ok loc
    | none => .error .malformedResponse

/-- Observable actions of one polling run: issuing a `GET` on the job URI,
`response.close()`, and `time.sleep(seconds)`. -/
inductive PollEvent where
  | request
  | closeBody
  | sleep (seconds : Nat)
deriving DecidableEq, Repr

inductive PollResult where
  | ready (r : HttpResponse)
  | failed (e : ClientError)
  | outOfResponses
deriving DecidableEq, Repr

/-- `_poll_export_job`, as a function of the list of responses the server
gives to the successive `GET job_uri` requests.  Each iteration issues a
fresh request consuming the next response; `raise_for_status()` first, then
the 202 branch (close, sleep 1 second, continue), then the 200 branch
(return the response untouched).  Any other status falls through both
branches and loops.  `outOfResponses` marks a run whose unbounded `while`
loop has consumed every supplied response without terminating. -/
def _poll_export_job : List HttpResponse → List PollEvent × PollResult
  | [] => ([], .outOfResponses)
  | r :: rs =>
    if errorStatus r.status then
      ([.request], .failed (.requestFailed r.status r.body))
    else if r.status = 202 then
      let next := _poll_export_job rs
      (.request :: .closeBody :: .sleep 1 :: next.1, next.2)
    else if r.status = 200 then
      ([.request], .ready r)
    else
      let next := _poll_export_job rs
      (.request :: next.1, next.2)

/-- The underlying `tqdm` bar, reduced to its observable counters. -/
structure TqdmBar where
  total : Nat
  n : Nat
deriving DecidableEq, Repr

structure ProgressBarState where
  total_size_in_bytes : Nat
  current_size_in_bytes : Nat
  progress_bar : Option TqdmBar
deriving DecidableEq, Repr

inductive LogEvent where
  | infoTotalSize (n : Nat)
  | debugChunkSize (n : Nat)
  | infoDownloaded (n : Nat)
deriving DecidableEq, Repr

/-- `ProgressBar.__init__(total_size_in_bytes, use_tqdm)`: a `tqdm` bar is
created only when `use_tqdm`; the `"Total size"` info line is logged only when
`total_size_in_bytes` is truthy (non-zero). -/
def progressBarInit (total_size_in_bytes : Nat) (use_tqdm : Bool) :
    ProgressBarState × List LogEvent :=
  ({ total_size_in_bytes := total_size_in_bytes
     current_size_in_bytes := 0
     progress_bar := if use_tqdm then some ⟨total_size_in_bytes, 0⟩ else none },
   if total_size_in_bytes ≠ 0 then [.infoTotalSize total_size_in_bytes] else [])

/-- `ProgressBar.update(chunk_size_in_bytes)`: `current_size_in_bytes` always
advances; the `tqdm` bar advances only when present. -/
def progressBarUpdate (st : ProgressBarState) (chunk_size_in_bytes : Nat) :
    ProgressBarState × List LogEvent :=
  ({ st with
      current_size_in_bytes := st.current_size_in_bytes + chunk_size_in_bytes
      progress_bar := st.progress_bar.map (fun b => { b with n := b.n + chunk_size_in_bytes }) },
   [.debugChunkSize chunk_size_in_bytes])

/-- `ProgressBar.close()` logs the final byte count. -/
def progressBarClose (st : ProgressBarState) : List LogEvent :=
  [.infoDownloaded st.current_size_in_bytes]

/-- Observable actions of the download loop: a progress update and the write
of a chunk to the destination file. -/
inductive DownloadEvent where
  | progressUpdate (n : Nat)
  | fileWrite (chunk : List Nat)
deriving DecidableEq, Repr

/-- The download loop of `download_export`:
`for chunk in response.iter_content(chunk_size): progress_bar.update(len(chunk)); f.write(chunk)`.
The state carries the progress bar and the destination file's content. -/
def writeChunks (pb : ProgressBarState) (fileContent : List Nat) :
    List (List Nat) → List DownloadEvent × ProgressBarState × List Nat
  | [] => ([], pb, fileContent)
  | c :: cs =>
    let pb' := (progressBarUpdate pb c.length).1
    let file' := fileContent ++ c
    let rest := writeChunks pb' file' cs
    (.progressUpdate c.length :: .fileWrite c :: rest.1, rest.2)

/-- `total_size_in_bytes = int(response.headers.get("content-length", 0))`.
`decodeDigits` models `int(·)` on the canonical decimal numerals that a
content-length header carries. -/
def getTotalSize (headers : List (String × String)) : Nat :=
  match lookupHeader headers "content-length" with
  | some v => decodeDigits v.data
  | none => 0

/-- Python `str(x)` on an `int | str` argument. -/
inductive PyId where
  | int (i : Int)
  | str (s : String)
deriving DecidableEq, Repr

def intChars (i : Int) : List Char :=
  if i < 0 then '-' :: natChars i.natAbs else natChars i.natAbs

def pyStr : PyId → String
  | .int i => String.mk (intChars i)
  | .str s => s

/-- The JSON body `{"behaviors": ..., "studies": ...}` sent by
`_start_export_job`. -/
structure SubmitRequest where
  behaviors : List String
  studies : List String
deriving DecidableEq, Repr

inductive DownloadOutcome where
  | failed (e : ClientError)
  | incomplete
  | completed (file : List Nat) (finalBar : ProgressBarState) (events : List DownloadEvent)
deriving DecidableEq, Repr

/-- `download_export`, as a function of the caller's id lists, of the response
to the submit request and of the responses to the successive poll requests.
It returns the submit request body that was sent together with the outcome. -/
def download_export (behavior_ids studies : List PyId)
    (submitResp : HttpResponse) (pollResps : List HttpResponse)
    (show_progress_bar : Bool) : SubmitRequest × DownloadOutcome :=
  let _behavior_ids : List String := behavior_ids.map pyStr
  let _studies : List String := studies.map pyStr
  let req : SubmitRequest := ⟨_behavior_ids, _studies⟩
  match _start_export_job submitResp with
  | .error e => (req, .failed e)
  | .ok _job_uri =>
    match (_poll_export_job pollResps).2 with
    | .failed e => (req, .failed e)
    | .outOfResponses => (req, .incomplete)
    | .ready response =>
      let total_size_in_bytes := getTotalSize response.headers
      let pb := (progressBarInit total_size_in_bytes show_progress_bar).1
      let run := writeChunks pb [] response.chunks
      (req, .completed run.2.2 run.2.1 run.1)

inductive Json where
  | null
  | bool (b : Bool)
  | num (n : Int)
  | str (s : String)
  | arr (xs : List Json)
  | obj (fields : List (String × Json))

/-- Python exceptions `check_health` can raise: `json.JSONDecodeError` from
`response.json()` on a non-JSON body, `KeyError`/`TypeError` from
`["status"]` on a payload without that field or not a JSON object. -/
inductive PyError where
  | jsonDecodeError
  | keyError (k : String)
  | typeError
deriving DecidableEq, Repr

/-- A response to `GET /api/v1/health`: its HTTP status code and its body,
already split into the parsed JSON value (`some`) or unparsable (`none`). -/
structure HealthResponse where
  status : Nat
  jsonBody : Option Json

/-- Python's `==` between a JSON value and a string literal: string equality
when the value is a string, `False` for every other type. -/
def jsonEqStr (v : Json) (s : String) : Bool :=
  match v with
  | .str t => t == s
  | _ => false

/-- Exact-key lookup in a JSON object, as Python's `dict.__getitem__`. -/
def lookupField (fields : List (String × Json)) (k : String) : Option Json :=
  (fields.find? (fun f => f.1 == k)).map Prod.snd

/-- `check_health`: `return response.json()["status"] == "ok"`. -/
def check_health (r : HealthResponse) : Except PyError Bool :=
  match r.jsonBody with
  | none => .error .jsonDecodeError
  | some (.obj fields) =>
    match lookupField fields "status" with
    | some v => .ok (jsonEqStr v "ok")
    | none => .error (.keyError "status")
  | some _ => .error .typeError

def runUpdates (st : ProgressBarState) (chunks : List Nat) : ProgressBarState :=
  chunks.foldl (fun s c => (progressBarUpdate s c).1) st

/-- A concrete query, shaped like the fixture in `_get_payload`'s docstring. -/
def exampleParams : Params :=
  [("behaviors", [.scalar (.str "Appliance_Usage"), .scalar (.str "Occupancy_Measurement")]),
   ("countries", [.scalar (.str "USA"), .scalar (.str "UK")]),
   ("studies", [.scalar (.int 22), .scalar (.int 11)]),
   ("buildings",
     [.obj [("building_type", .str "Educational"), ("room_type", .str "Classroom")],
      .obj [("building_type", .str "Residential"), ("room_type", .str "Single-Family House")]])]

/-! ## Theorems -/

theorem natCharsAux_eq_digits :
    ∀ (fuel n : Nat), n ≤ fuel →
      natCharsAux fuel n = ((Nat.digits 10 n).map Nat.digitChar).reverse := by
  intro fuel
  induction fuel with
  | zero =>
    intro n hn
    interval_cases n
    simp [natCharsAux, Nat.digits_zero]
  | succ fuel ih =>
    intro n hn
    cases n with
    | zero => simp [natCharsAux, Nat.digits_zero]
    | succ m =>
      rw [natCharsAux, ih _ (by
        have := Nat.div_lt_self (Nat.succ_pos m) (by norm_num : 1 < 10)
        omega)]
      rw [Nat.digits_def' (by norm_num : 1 < 10) (Nat.succ_pos m)]
      rw [List.map_cons, List.reverse_cons]

theorem natChars_eq_digits (n : Nat) :
    natChars n = if n = 0 then ['0'] else ((Nat.digits 10 n).map Nat.digitChar).reverse := by
  unfold natChars
  split
  · rfl
  · exact natCharsAux_eq_digits n n le_rfl

theorem charToDigit_digitChar {d : Nat} (h : d < 10) :
    charToDigit (Nat.digitChar d) = d := by
  interval_cases d <;> rfl

theorem decodeDigits_natChars (n : Nat) : decodeDigits (natChars n) = n := by
  rw [natChars_eq_digits]
  unfold decodeDigits
  split
  · subst n; rfl
  · rw [List.reverse_reverse, List.map_map]
    have hmap : (Nat.digits 10 n).map (charToDigit ∘ Nat.digitChar) = Nat.digits 10 n := by
      have hid : ∀ d ∈ Nat.digits 10 n, (charToDigit ∘ Nat.digitChar) d = id d :=
        fun d hd => charToDigit_digitChar (Nat.digits_lt_base (by norm_num) hd)
      rw [List.map_congr_left hid, List.map_id]
    rw [hmap, Nat.ofDigits_digits]

theorem natChars_injective {m n : Nat} (h : natChars m = natChars n) : m = n := by
  have := congrArg decodeDigits h
  rwa [decodeDigits_natChars, decodeDigits_natChars] at this

theorem exists_digit_of_mem_natChars {n : Nat} {c : Char} (h : c ∈ natChars n) :
    ∃ d, d < 10 ∧ c = Nat.digitChar d := by
  rw [natChars_eq_digits] at h
  split at h
  · simp only [List.mem_singleton] at h
    exact ⟨0, by norm_num, h⟩
  · rw [List.mem_reverse] at h
    obtain ⟨d, hd, rfl⟩ := List.mem_map.1 h
    exact ⟨d, Nat.digits_lt_base (by norm_num) hd, rfl⟩

theorem digitChar_ne_brackets {d : Nat} (h : d < 10) :
    Nat.digitChar d ≠ '[' ∧ Nat.digitChar d ≠ ']' := by
  interval_cases d <;> exact ⟨by decide, by decide⟩

theorem lbracket_not_mem_natChars (n : Nat) : '[' ∉ natChars n := by
  intro hmem
  obtain ⟨d, hd, hc⟩ := exists_digit_of_mem_natChars hmem
  exact (digitChar_ne_brackets hd).1 hc.symm

theorem rbracket_not_mem_natChars (n : Nat) : ']' ∉ natChars n := by
  intro hmem
  obtain ⟨d, hd, hc⟩ := exists_digit_of_mem_natChars hmem
  exact (digitChar_ne_brackets hd).2 hc.symm

/-- If neither prefix contains the separator `c`, a list splits at its first
occurrence of `c` in exactly one way. -/
theorem append_sep_inj {c : Char} :
    ∀ {a b r s : List Char}, c ∉ a → c ∉ b →
      a ++ c :: r = b ++ c :: s → a = b ∧ r = s := by
  intro a
  induction a with
  | nil =>
    intro b r s _ hb h
    cases b with
    | nil => simpa using h
    | cons y bs =>
      simp only [List.nil_append, List.cons_append, List.cons.injEq] at h
      exact absurd (h.1 ▸ List.mem_cons_self y bs) hb
  | cons x as ih =>
    intro b r s ha hb h
    cases b with
    | nil =>
      simp only [List.cons_append, List.nil_append, List.cons.injEq] at h
      exact absurd (h.1.symm ▸ List.mem_cons_self x as) ha
    | cons y bs =>
      simp only [List.cons_append, List.cons.injEq] at h
      have has : c ∉ as := fun hm => ha (List.mem_cons_of_mem _ hm)
      have hbs : c ∉ bs := fun hm => hb (List.mem_cons_of_mem _ hm)
      obtain ⟨hab, hrs⟩ := ih has hbs h.2
      exact ⟨by rw [h.1, hab], hrs⟩

theorem encodeKey_data (g : String) (i : Nat) (o : Option String) :
    (encodeKey g i o).data = g.data ++ '[' :: (natChars i ++ ']' :: keyTail o) := by
  cases o <;>
    simp [encodeKey, natStr, keyTail, String.data_append, List.append_assoc]

theorem encodeKey_inj {g₁ g₂ : String} {i₁ i₂ : Nat} {o₁ o₂ : Option String}
    (hg₁ : bracketFree g₁) (hg₂ : bracketFree g₂)
    (ho₁ : ∀ k, o₁ = some k → bracketFree k)
    (ho₂ : ∀ k, o₂ = some k → bracketFree k)
    (h : encodeKey g₁ i₁ o₁ = encodeKey g₂ i₂ o₂) :
    g₁ = g₂ ∧ i₁ = i₂ ∧ o₁ = o₂ := by
  have hdata := congrArg String.data h
  rw [encodeKey_data, encodeKey_data] at hdata
  obtain ⟨hgd, hrest⟩ := append_sep_inj hg₁.1 hg₂.1 hdata
  obtain ⟨hnd, htail⟩ :=
    append_sep_inj (rbracket_not_mem_natChars i₁) (rbracket_not_mem_natChars i₂) hrest
  refine ⟨String.ext hgd, natChars_injective hnd, ?_⟩
  cases o₁ with
  | none =>
    cases o₂ with
    | none => rfl
    | some k₂ => exact absurd htail (by simp [keyTail])
  | some k₁ =>
    cases o₂ with
    | none => exact absurd htail (by simp [keyTail])
    | some k₂ =>
      simp only [keyTail, List.cons.injEq, true_and] at htail
      have hk₁ : ']' ∉ k₁.data := (ho₁ k₁ rfl).2
      have hk₂ : ']' ∉ k₂.data := (ho₂ k₂ rfl).2
      have : k₁.data ++ ']' :: [] = k₂.data ++ ']' :: [] := by simpa using htail
      obtain ⟨hkd, -⟩ := append_sep_inj hk₁ hk₂ this
      rw [String.ext hkd]

theorem yield_eq_specSerialize (params : Params) :
    _yield_payload_dict_item params = specSerialize params := rfl

theorem specSerialize_keys (params : Params) :
    (specSerialize params).map Prod.fst = params.flatMap groupKeys := by
  rw [specSerialize, List.map_flatMap]
  refine List.flatMap_congr (fun p _ => ?_)
  rw [groupKeys, List.map_flatMap]
  refine List.flatMap_congr (fun q _ => ?_)
  cases q.2 <;> simp [itemKeys]

theorem mem_itemKeys {g : String} {i : Nat} {item : ParamItem} {k : String}
    (hv : itemValid item) (h : k ∈ itemKeys g i item) :
    ∃ o, (∀ k', o = some k' → bracketFree k') ∧ k = encodeKey g i o := by
  cases item with
  | scalar v =>
    simp only [itemKeys, List.mem_singleton] at h
    exact ⟨none, fun _ h' => Option.noConfusion h', h⟩
  | obj fields =>
    simp only [itemKeys, List.mem_map] at h
    obtain ⟨f, hf, rfl⟩ := h
    exact ⟨some f.1, fun k' h' => by cases h'; exact hv.2 f hf, rfl⟩

theorem mem_groupKeys {p : String × List ParamItem} {k : String}
    (hv : ∀ item ∈ p.2, itemValid item) (h : k ∈ groupKeys p) :
    ∃ i o, (∀ k', o = some k' → bracketFree k') ∧ k = encodeKey p.1 i o := by
  rw [groupKeys, List.mem_flatMap] at h
  obtain ⟨q, hq, hk⟩ := h
  obtain ⟨o, ho, hko⟩ := mem_itemKeys (hv q.2 (List.snd_mem_of_mem_enum hq)) hk
  exact ⟨q.1, o, ho, hko⟩

theorem groupKeys_nodup {p : String × List ParamItem}
    (hg : bracketFree p.1) (hv : ∀ item ∈ p.2, itemValid item) :
    (groupKeys p).Nodup := by
  rw [groupKeys]
  refine List.nodup_flatMap.2 ⟨?_, ?_⟩
  · intro q hq
    have hvq := hv q.2 (List.snd_mem_of_mem_enum hq)
    cases hitem : q.2 with
    | scalar v => simp [itemKeys]
    | obj fields =>
      rw [hitem] at hvq
      have hcomp : (fun f : String × Scalar => encodeKey p.1 q.1 (some f.1)) =
          (fun k => encodeKey p.1 q.1 (some k)) ∘ Prod.fst := rfl
      rw [itemKeys, hcomp, ← List.map_map]
      refine List.Nodup.map_on ?_ hvq.1
      intro k₁ hk₁ k₂ hk₂ heq
      have hbf₁ : bracketFree k₁ := by
        obtain ⟨f, hf, rfl⟩ := List.mem_map.1 hk₁
        exact hvq.2 f hf
      have hbf₂ : bracketFree k₂ := by
        obtain ⟨f, hf, rfl⟩ := List.mem_map.1 hk₂
        exact hvq.2 f hf
      have := (encodeKey_inj hg hg
        (fun k' h' => by cases h'; exact hbf₁)
        (fun k' h' => by cases h'; exact hbf₂) heq).2.2
      exact Option.some.inj this
  · have hfst : ((p.2.enum).map Prod.fst).Nodup := by
      rw [List.enum_map_fst]; exact List.nodup_range _
    have hpw := (List.pairwise_map).1 hfst
    refine hpw.imp_of_mem ?_
    intro q q' hq hq' hne
    rw [Function.onFun, List.disjoint_left]
    intro k hk hk'
    obtain ⟨o, ho, rfl⟩ := mem_itemKeys (hv q.2 (List.snd_mem_of_mem_enum hq)) hk
    obtain ⟨o', ho', heq⟩ := mem_itemKeys (hv q'.2 (List.snd_mem_of_mem_enum hq')) hk'
    exact hne (encodeKey_inj hg hg ho ho' heq).2.1

theorem specSerialize_keys_nodup {params : Params} (h : validParams params) :
    ((specSerialize params).map Prod.fst).Nodup := by
  rw [specSerialize_keys]
  refine List.nodup_flatMap.2 ⟨?_, ?_⟩
  · intro p hp
    exact groupKeys_nodup (h.2 p hp).1 (h.2 p hp).2
  · have hpw := (List.pairwise_map).1 h.1
    refine hpw.imp_of_mem ?_
    intro p p' hp hp' hne
    rw [Function.onFun, List.disjoint_left]
    intro k hk hk'
    obtain ⟨i, o, ho, rfl⟩ := mem_groupKeys (h.2 p hp).2 hk
    obtain ⟨i', o', ho', heq⟩ := mem_groupKeys (h.2 p' hp').2 hk'
    exact hne (encodeKey_inj (h.2 p hp).1 (h.2 p' hp').1 ho ho' heq).1

theorem dictInsert_not_mem {d : List (String × Scalar)} {kv : String × Scalar}
    (h : kv.1 ∉ d.map Prod.fst) : dictInsert d kv = d ++ [kv] := by
  rw [dictInsert, if_neg]
  intro hany
  obtain ⟨p, hp, hpk⟩ := List.any_eq_true.1 hany
  exact h (List.mem_map.2 ⟨p, hp, beq_iff_eq.1 hpk⟩)

theorem foldl_dictInsert_of_nodup :
    ∀ (l acc : List (String × Scalar)), (((acc ++ l).map Prod.fst).Nodup) →
      l.foldl dictInsert acc = acc ++ l := by
  intro l
  induction l with
  | nil => intro acc _; simp
  | cons kv t ih =>
    intro acc h
    have hmem : kv.1 ∉ acc.map Prod.fst := by
      rw [List.map_append, List.nodup_append] at h
      intro hin
      exact h.2.2 hin (List.mem_map.2 ⟨kv, List.mem_cons_self kv t, rfl⟩)
    rw [List.foldl_cons, dictInsert_not_mem hmem, ih (acc ++ [kv]) (by simpa using h)]
    simp

/-- Python's `dict(pairs)` preserves the pairs, in order, when all keys are
distinct. -/
theorem pyDict_of_nodup {l : List (String × Scalar)}
    (h : (l.map Prod.fst).Nodup) : pyDict l = l :=
  foldl_dictInsert_of_nodup l [] (by simpa using h)

theorem poll_cons_error {r : HttpResponse} (rs : List HttpResponse)
    (h : errorStatus r.status) :
    _poll_export_job (r :: rs) =
      ([.request], .failed (.requestFailed r.status r.body)) := by
  rw [_poll_export_job, if_pos h]

theorem poll_cons_202 {r : HttpResponse} (rs : List HttpResponse)
    (h : r.status = 202) :
    _poll_export_job (r :: rs) =
      (.request :: .closeBody :: .sleep 1 :: (_poll_export_job rs).1,
        (_poll_export_job rs).2) := by
  rw [_poll_export_job, if_neg (by rw [h]; decide), if_pos h]

theorem poll_cons_200 {r : HttpResponse} (rs : List HttpResponse)
    (h : r.status = 200) :
    _poll_export_job (r :: rs) = ([.request], .ready r) := by
  rw [_poll_export_job, if_neg (by rw [h]; decide), if_neg (by rw [h]; decide), if_pos h]

theorem poll_cons_other {r : HttpResponse} (rs : List HttpResponse)
    (h₁ : ¬ errorStatus r.status) (h₂ : r.status ≠ 202) (h₃ : r.status ≠ 200) :
    _poll_export_job (r :: rs) =
      (.request :: (_poll_export_job rs).1, (_poll_export_job rs).2) := by
  rw [_poll_export_job, if_neg h₁, if_neg h₂, if_neg h₃]

theorem writeChunks_run (chunks : List (List Nat)) :
    ∀ (pb : ProgressBarState) (file : List Nat),
      (writeChunks pb file chunks).2.2 = file ++ chunks.flatten ∧
      (writeChunks pb file chunks).2.1.current_size_in_bytes =
        pb.current_size_in_bytes + (chunks.map List.length).sum ∧
      (writeChunks pb file chunks).1 =
        chunks.flatMap (fun c => [.progressUpdate c.length, .fileWrite c]) := by
  induction chunks with
  | nil => intro pb file; simp [writeChunks]
  | cons c cs ih =>
    intro pb file
    obtain ⟨h1, h2, h3⟩ := ih (progressBarUpdate pb c.length).1 (file ++ c)
    refine ⟨?_, ?_, ?_⟩
    · rw [writeChunks]
      simpa [List.append_assoc] using h1
    · simp only [progressBarUpdate] at h2
      simp only [writeChunks, progressBarUpdate, h2, List.map_cons, List.sum_cons]
      omega
    · rw [writeChunks]
      simp [h3]

theorem runUpdates_current :
    ∀ (chunks : List Nat) (st : ProgressBarState),
      (runUpdates st chunks).current_size_in_bytes =
        st.current_size_in_bytes + chunks.sum := by
  intro chunks
  induction chunks with
  | nil => intro st; simp [runUpdates]
  | cons c cs ih =>
    intro st
    rw [runUpdates, List.foldl_cons]
    have := ih ((progressBarUpdate st c).1)
    rw [runUpdates] at this
    rw [this]
    simp [progressBarUpdate]
    omega

/-! ## Claims -/

/-- C1 counterexample: the claim says every status other than 202 and 200
makes the poll fail with `RequestFailed`, but `raise_for_status()` only raises
for 4xx/5xx.  A 204 response neither fails nor returns: the loop silently
issues the next request (with no close and no wait), and a run consisting of
only a 204 ends without any failure. -/
theorem poll_status_204_not_request_failed :
    _poll_export_job [⟨204, [], []⟩, ⟨200, [], [[1]]⟩] =
      ([.request, .request], .ready ⟨200, [], [[1]]⟩) ∧
    _poll_export_job [⟨204, [], []⟩] = ([.request], .outOfResponses) :=
  ⟨by decide, by decide⟩

/-- C1 (amended): each response is interpreted by status code: on 202 the body
is closed, the loop sleeps 1 second and issues a fresh request; on 200 the
response is returned as is (its body neither closed nor read); on 4xx/5xx the
call fails with `RequestFailed` carrying the status and body; on any other
status the loop issues a fresh request immediately, without failing, closing
the body, or waiting. -/
theorem poll_two_state_machine (r : HttpResponse) (rs : List HttpResponse) :
    (errorStatus r.status →
      _poll_export_job (r :: rs) =
        ([.request], .failed (.requestFailed r.status r.body))) ∧
    (r.status = 202 →
      _poll_export_job (r :: rs) =
        (.request :: .closeBody :: .sleep 1 :: (_poll_export_job rs).1,
          (_poll_export_job rs).2)) ∧
    (r.status = 200 →
      _poll_export_job (r :: rs) = ([.request], .ready r)) ∧
    (¬ errorStatus r.status → r.status ≠ 202 → r.status ≠ 200 →
      _poll_export_job (r :: rs) =
        (.request :: (_poll_export_job rs).1, (_poll_export_job rs).2)) :=
  ⟨fun h => poll_cons_error rs h, fun h => poll_cons_202 rs h,
   fun h => poll_cons_200 rs h, fun h₁ h₂ h₃ => poll_cons_other rs h₁ h₂ h₃⟩

theorem poll_two_state_machine_witness :
    _poll_export_job [⟨404, [], [[9]]⟩] = ([.request], .failed (.requestFailed 404 [9])) ∧
    _poll_export_job [⟨202, [], []⟩] = ([.request, .closeBody, .sleep 1], .outOfResponses) ∧
    _poll_export_job [⟨200, [], [[7]]⟩] = ([.request], .ready ⟨200, [], [[7]]⟩) ∧
    _poll_export_job [⟨301, [], []⟩] = ([.request], .outOfResponses) :=
  ⟨(poll_two_state_machine ⟨404, [], [[9]]⟩ []).1 (by decide),
   (poll_two_state_machine ⟨202, [], []⟩ []).2.1 rfl,
   (poll_two_state_machine ⟨200, [], [[7]]⟩ []).2.2.1 rfl,
   (poll_two_state_machine ⟨301, [], []⟩ []).2.2.2 (by decide) (by decide) (by decide)⟩

/-- C2: `_start_export_job` fails with `RequestFailed{statusCode, body}` on
every 4xx/5xx response; on a non-error response it returns exactly the value
of the (case-insensitively looked up) `Location` header, and fails with
`MalformedResponse` (the `KeyError`) when that header is absent. -/
theorem start_export_job_contract (r : HttpResponse) :
    (errorStatus r.status →
      _start_export_job r = .error (.requestFailed r.status r.body)) ∧
    (¬ errorStatus r.status → ∀ loc, lookupHeader r.headers "location" = some loc →
      _start_export_job r = .ok loc) ∧
    (¬ errorStatus r.status → lookupHeader r.headers "location" = none →
      _start_export_job r = .error .malformedResponse) := by
  refine ⟨fun h => ?_, fun h loc hloc => ?_, fun h hnone => ?_⟩
  · rw [_start_export_job, if_pos h]
  · rw [_start_export_job, if_neg h, hloc]
  · rw [_start_export_job, if_neg h, hnone]

theorem start_export_job_contract_witness :
    _start_export_job ⟨500, [], [[104, 105]]⟩ = .error (.requestFailed 500 [104, 105]) ∧
    _start_export_job ⟨202, [("Location", "/api/v1/exports/abc")], []⟩ =
      .ok "/api/v1/exports/abc" ∧
    _start_export_job ⟨202, [], []⟩ = .error .malformedResponse :=
  ⟨(start_export_job_contract _).1 (by decide),
   (start_export_job_contract _).2.1 (by decide) _ rfl,
   (start_export_job_contract _).2.2 (by decide) rfl⟩

/-- C3: on every valid params dictionary (distinct bracket-free group names,
mapping elements with distinct bracket-free field names) `_get_payload`
produces exactly the pairs described by §4.1 of the spec, in input iteration
order — scalar `vi` of group `g` gives `g[i] ↦ vi`, mapping `vi` gives
`g[i][k] ↦ val` for each of its fields in order — and the keys are unique. -/
theorem get_payload_serializer_correct (params : Params) (h : validParams params) :
    _get_payload params = specSerialize params ∧
    ((_get_payload params).map Prod.fst).Nodup := by
  have hnd := specSerialize_keys_nodup h
  have heq : _get_payload params = specSerialize params := by
    rw [_get_payload, yield_eq_specSerialize, pyDict_of_nodup hnd]
  exact ⟨heq, by rw [heq]; exact hnd⟩

theorem get_payload_serializer_correct_witness :
    _get_payload exampleParams = specSerialize exampleParams ∧
    ((_get_payload exampleParams).map Prod.fst).Nodup :=
  get_payload_serializer_correct exampleParams (by decide)

/-- C4: polling against the response sequence `[202, 202, 200]` makes exactly
3 requests, returns the third response, and the fixed 1-second wait separates
each request from the next. -/
theorem poll_sequence_202_202_200 (r₁ r₂ r₃ : HttpResponse)
    (h₁ : r₁.status = 202) (h₂ : r₂.status = 202) (h₃ : r₃.status = 200) :
    _poll_export_job [r₁, r₂, r₃] =
      ([.request, .closeBody, .sleep 1, .request, .closeBody, .sleep 1, .request],
        .ready r₃) ∧
    (_poll_export_job [r₁, r₂, r₃]).1.count .request = 3 := by
  have e : _poll_export_job [r₁, r₂, r₃] =
      ([.request, .closeBody, .sleep 1, .request, .closeBody, .sleep 1, .request],
        .ready r₃) := by
    rw [poll_cons_202 _ h₁, poll_cons_202 _ h₂, poll_cons_200 _ h₃]
  exact ⟨e, by rw [e]; rfl⟩

theorem poll_sequence_202_202_200_witness :
    _poll_export_job [⟨202, [], []⟩, ⟨202, [], []⟩, ⟨200, [], [[3]]⟩] =
      ([.request, .closeBody, .sleep 1, .request, .closeBody, .sleep 1, .request],
        .ready ⟨200, [], [[3]]⟩) ∧
    (_poll_export_job [⟨202, [], []⟩, ⟨202, [], []⟩, ⟨200, [], [[3]]⟩]).1.count .request = 3 :=
  poll_sequence_202_202_200 ⟨202, [], []⟩ ⟨202, [], []⟩ ⟨200, [], [[3]]⟩ rfl rfl rfl

/-- C5: the download loop appends the chunks to the destination in order, so
the file is their exact concatenation; for each chunk the progress counter is
advanced by the chunk length before the chunk is written (the event trace puts
each `progressUpdate` immediately before its `fileWrite`); with chunks
`[b"AB", b"CD"]` the destination holds `b"ABCD"` and the transferred count is
4. -/
theorem stream_download_contract (chunks : List (List Nat)) (total : Nat) (flag : Bool) :
    (writeChunks (progressBarInit total flag).1 [] chunks).2.2 = chunks.flatten ∧
    (writeChunks (progressBarInit total flag).1 [] chunks).2.1.current_size_in_bytes =
      (chunks.map List.length).sum ∧
    (writeChunks (progressBarInit total flag).1 [] chunks).1 =
      chunks.flatMap (fun c => [.progressUpdate c.length, .fileWrite c]) ∧
    (writeChunks (progressBarInit 4 false).1 [] [[65, 66], [67, 68]]).2.2 =
      [65, 66, 67, 68] ∧
    (writeChunks (progressBarInit 4 false).1 [] [[65, 66], [67, 68]]).2.1.current_size_in_bytes
      = 4 := by
  obtain ⟨h1, h2, h3⟩ := writeChunks_run chunks (progressBarInit total flag).1 []
  exact ⟨by simpa using h1, by simpa [progressBarInit] using h2, h3, by decide, by decide⟩

/-- C6: `download_export` coerces every behavior and study identifier to its
string form (`str(x)`) before submitting; in particular the study ids
`[22, "11", 2]` are sent as `["22", "11", "2"]`. -/
theorem download_export_coerces_ids (behavior_ids studies : List PyId)
    (submitResp : HttpResponse) (pollResps : List HttpResponse) (flag : Bool) :
    (download_export behavior_ids studies submitResp pollResps flag).1 =
      ⟨behavior_ids.map pyStr, studies.map pyStr⟩ ∧
    (download_export behavior_ids [.int 22, .str "11", .int 2]
        submitResp pollResps flag).1.studies = ["22", "11", "2"] := by
  have hreq : ∀ (b s : List PyId),
      (download_export b s submitResp pollResps flag).1 = ⟨b.map pyStr, s.map pyStr⟩ := by
    intro b s
    cases hs : _start_export_job submitResp with
    | error e => simp [download_export, hs]
    | ok u =>
      cases hp : (_poll_export_job pollResps).2 <;> simp [download_export, hs, hp]
  refine ⟨hreq _ _, ?_⟩
  rw [hreq behavior_ids [.int 22, .str "11", .int 2]]
  show [PyId.int 22, PyId.str "11", PyId.int 2].map pyStr = ["22", "11", "2"]
  decide

/-- C7: the expected total size is the value of the `content-length` header
when present and 0 when absent; a total of 0 is accepted without error, is
not announced as a real size in the log, leaves the bar in its 0-total
(indeterminate) mode, and is indistinguishable from an absent header — it is
never read as "empty file". -/
theorem total_size_semantics (headers : List (String × String)) (n : Nat) :
    (lookupHeader headers "content-length" = some (natStr n) →
      getTotalSize headers = n) ∧
    (lookupHeader headers "content-length" = none → getTotalSize headers = 0) ∧
    (progressBarInit 0 true).1 = ⟨0, 0, some ⟨0, 0⟩⟩ ∧
    (progressBarInit 0 true).2 = [] ∧
    getTotalSize [("Content-Length", natStr 0)] = getTotalSize [] := by
  refine ⟨fun h => ?_, fun h => ?_, rfl, rfl, by decide⟩
  · simp only [getTotalSize, h]
    exact decodeDigits_natChars n
  · simp only [getTotalSize, h]

theorem total_size_semantics_witness :
    getTotalSize [("Content-Length", natStr 1234)] = 1234 ∧
    getTotalSize [("x", "y")] = 0 :=
  ⟨(total_size_semantics [("Content-Length", natStr 1234)] 1234).1 rfl,
   (total_size_semantics [("x", "y")] 0).2.1 rfl⟩

/-- C8: `check_health` returns `True` exactly when the payload's `status`
field is the string `"ok"`; any other field value yields `False`; a payload
without the field raises `KeyError` and a non-JSON body raises the decode
error (the "or raises" branch of the claim). -/
theorem check_health_status_ok (r : HealthResponse) :
    (∀ fields v, r.jsonBody = some (.obj fields) →
      lookupField fields "status" = some v →
      check_health r = .ok (jsonEqStr v "ok")) ∧
    (∀ v : Json, jsonEqStr v "ok" = true ↔ v = .str "ok") ∧
    (∀ fields, r.jsonBody = some (.obj fields) →
      lookupField fields "status" = none →
      check_health r = .error (.keyError "status")) ∧
    (r.jsonBody = none → check_health r = .error .jsonDecodeError) := by
  refine ⟨fun fields v hb hv => ?_, fun v => ?_, fun fields hb hv => ?_, fun hb => ?_⟩
  · simp only [check_health, hb, hv]
  · cases v <;> simp [jsonEqStr]
  · simp only [check_health, hb, hv]
  · simp only [check_health, hb]

theorem check_health_status_ok_witness :
    check_health ⟨200, some (.obj [("status", .str "ok")])⟩ = .ok true ∧
    check_health ⟨200, some (.obj [("status", .str "degraded")])⟩ = .ok false ∧
    check_health ⟨200, some (.obj [("version", .str "1")])⟩ = .error (.keyError "status") ∧
    check_health ⟨200, none⟩ = .error .jsonDecodeError :=
  ⟨(check_health_status_ok ⟨200, some (.obj [("status", Json.str "ok")])⟩).1
      [("status", Json.str "ok")] (Json.str "ok") rfl rfl,
   (check_health_status_ok ⟨200, some (.obj [("status", Json.str "degraded")])⟩).1
      [("status", Json.str "degraded")] (Json.str "degraded") rfl rfl,
   (check_health_status_ok ⟨200, some (.obj [("version", Json.str "1")])⟩).2.2.1
      [("version", Json.str "1")] rfl rfl,
   (check_health_status_ok ⟨200, none⟩).2.2.2 rfl⟩

/-- C9: the transferred-byte accounting of the progress reporter is identical
whether the visual bar is enabled or disabled: after any sequence of updates
both runs hold the sum of the chunk lengths. -/
theorem progress_accounting_bar_independent (total : Nat) (b₁ b₂ : Bool)
    (chunks : List Nat) :
    (runUpdates (progressBarInit total b₁).1 chunks).current_size_in_bytes =
      (runUpdates (progressBarInit total b₂).1 chunks).current_size_in_bytes ∧
    (runUpdates (progressBarInit total b₁).1 chunks).current_size_in_bytes =
      chunks.sum := by
  have h₁ := runUpdates_current chunks (progressBarInit total b₁).1
  have h₂ := runUpdates_current chunks (progressBarInit total b₂).1
  constructor
  · rw [h₁, h₂]
    rfl
  · rw [h₁]
    simp [progressBarInit]

/-- C10: `check_health` never inspects the HTTP status code: its result is a
function of the body alone, so a body whose `status` field is `"ok"` yields
`True` even under an HTTP 4xx/5xx, and no `RequestFailed` is ever raised (the
function performs no status check at all). -/
theorem check_health_ignores_http_status (s₁ s₂ : Nat) (body : Option Json)
    (fields : List (String × Json)) :
    check_health ⟨s₁, body⟩ = check_health ⟨s₂, body⟩ ∧
    (lookupField fields "status" = some (.str "ok") →
      check_health ⟨s₁, some (.obj fields)⟩ = .ok true) := by
  constructor
  · rfl
  · intro h
    simp only [check_health, h]
    rfl

theorem check_health_ignores_http_status_witness :
    check_health ⟨500, some (.obj [("status", .str "ok")])⟩ =
      check_health ⟨200, some (.obj [("status", .str "ok")])⟩ ∧
    check_health ⟨500, some (.obj [("status", .str "ok")])⟩ = .ok true :=
  ⟨(check_health_ignores_http_status 500 200
      (some (.obj [("status", Json.str "ok")])) []).1,
   (check_health_ignores_http_status 500 200
      (some (.obj [("status", Json.str "ok")])) [("status", Json.str "ok")]).2 rfl⟩

end OBPlatform

